import Mathlib

/-!
Verification of the xcfg configuration tool (src/xcfg.py) against its
natural-language specification.

The development shallowly embeds the Python module: the DOM view that
xml.dom.minidom presents of a parsed document is modelled by the mutual
inductives XNode/XNodes; an AdvancedConfig object is modelled by AC (its
instance dictionary as an ordered association list Slots plus the keylist
set as a list without duplicates); Python exceptions that can escape the
modelled code paths are the constructors of PyErr; logging.warn calls are
collected in returned lists of message strings.  Python string operations
(strip, split, join, find) are reimplemented on List Char with their
Python semantics.

Fidelity notes, established by inspection of the source bytes:
- line 283 of xcfg.py (the recursive cfg.parse_element(n, mode) call) is
  indented with a tab followed by twelve spaces; under the Python 2
  tokenizer (tab stops of eight) that places it at column 20, inside the
  suite of the elif mode=="merge" branch.  In load mode the call never
  runs, so child elements are attached as empty, never-parsed objects.
- child_dict in parse_element is initialised to an empty dict and never
  written, so the loop over child_dict.keys() is a no-op.
- setattr(self, n.localName, cfg) in parse_element does not add the child
  name to self.keylist, so keys() never reports child elements.
- in merge mode, when a child element name already exists, the code reads
  self.d, an attribute AdvancedConfig never defines, raising
  AttributeError unless a configuration entry named d happens to exist.
-/

set_option maxHeartbeats 1000000

namespace Xcfg

/-! ## Python string primitives, on lists of characters -/

/-- Characters stripped by the Python str.strip() method with no argument. -/
def isPySpace (c : Char) : Bool :=
  c == ' ' || c == '\t' || c == '\n' || c == '\r' || c == '\x0B' || c == '\x0C'

/-- Drop a trailing run of the character c, as the right half of str.strip(c). -/
def dropTrailing (c : Char) : List Char → List Char
  | [] => []
  | x :: xs =>
    let r := dropTrailing c xs
    if r = [] && x == c then [] else x :: r

/-- Python s.strip() on a character list. -/
def pyStripWsL (l : List Char) : List Char :=
  ((l.dropWhile isPySpace).reverse.dropWhile isPySpace).reverse

/-- Python s.strip() on a string. -/
def pyStripWs (s : String) : String :=
  String.mk (pyStripWsL s.data)

/-- Python s.strip(c) for a single-character argument. -/
def pyStripCharL (c : Char) (l : List Char) : List Char :=
  dropTrailing c (l.dropWhile (· == c))

/-- Prepend a character to the first piece of a split result.  Helper for
pySplit; the argument list is never empty in practice. -/
def consHead (x : Char) : List (List Char) → List (List Char)
  | [] => [[]]
  | h :: t => (x :: h) :: t

/-- Python s.split(sep) for a non-empty separator whose first character is
s0 and remaining characters are srest.  Scans left to right, splitting at
each non-overlapping occurrence of the separator; the result is never
empty, and splitting the empty string yields one empty piece. -/
def pySplit (s0 : Char) (srest : List Char) : List Char → List (List Char)
  | [] => [[]]
  | c :: cs =>
    if s0 == c && srest.isPrefixOf cs then
      [] :: pySplit s0 srest (cs.drop srest.length)
    else
      consHead c (pySplit s0 srest cs)
termination_by l => l.length
decreasing_by
  · simp only [List.length_cons, List.length_drop]
    omega
  · simp only [List.length_cons]
    omega

/-- Python sep.join(pieces) on character lists. -/
def pyJoin (sep : List Char) : List (List Char) → List Char
  | [] => []
  | [x] => x
  | x :: y :: t => x ++ sep ++ pyJoin sep (y :: t)

/-- Index search underlying Python s.find(sub). -/
def findSub (needle : List Char) : List Char → Nat → Option Nat
  | [], i => if needle = [] then some i else none
  | c :: cs, i =>
    if needle.isPrefixOf (c :: cs) then some i else findSub needle cs (i + 1)

/-- Python hay.find(needle): index of the first occurrence, or -1. -/
def pyFind (hay needle : String) : Int :=
  match findSub needle.data hay.data 0 with
  | some i => (i : Int)
  | none => -1

/-- The duplicate-dropping loop of AdvancedConfig.clean: keep the first
occurrence of each piece, in order. -/
def dedupAcc (acc : List String) : List String → List String
  | [] => acc
  | p :: ps => if p ∈ acc then dedupAcc acc ps else dedupAcc (acc ++ [p]) ps

/-- Python sep.join on strings. -/
def joinStr (sep : String) (l : List String) : String :=
  String.mk (pyJoin sep.data (l.map String.data))

/-! ## The DOM view of a parsed document -/

mutual
/-- One child node as xml.dom.minidom presents it: an element with a local
name, an attribute list (localName, value) and child nodes, or a text
node with its nodeValue. -/
inductive XNode where
  | elem (name : String) (attrs : List (String × String)) (children : XNodes) : XNode
  | text (value : String) : XNode

/-- A childNodes sequence. -/
inductive XNodes where
  | nil : XNodes
  | cons (n : XNode) (rest : XNodes) : XNodes
end

/-- A successfully parsed document: its documentElement. -/
structure XDoc where
  name : String
  attrs : List (String × String)
  children : XNodes

/-! ## AdvancedConfig objects -/

/-- Python exceptions that can escape the modelled code paths. -/
inductive PyErr where
  | attributeError : PyErr
  | keyError : PyErr
  | typeError : PyErr
  | valueError : PyErr
deriving DecidableEq, Repr

/-- The mode argument threaded through read/parse_element/xsetattr. -/
inductive Mode where
  | load : Mode
  | merge : Mode
deriving DecidableEq, Repr

mutual
/-- A value held in an AdvancedConfig slot: a string, or a nested
AdvancedConfig instance. -/
inductive Val where
  | str (s : String) : Val
  | node (a : AC) : Val

/-- An AdvancedConfig object: its instance dictionary (configuration
slots) and its keylist set. -/
inductive AC where
  | mk (slots : Slots) (keylist : List String) : AC

/-- The instance dictionary, as an ordered association list. -/
inductive Slots where
  | nil : Slots
  | cons (k : String) (v : Val) (rest : Slots) : Slots
end

def AC.slots : AC → Slots
  | .mk s _ => s

def AC.keylist : AC → List String
  | .mk _ k => k

/-- AdvancedConfig() with no filename: empty dictionary, empty keylist. -/
def emptyAC : AC := .mk .nil []

/-- Dictionary lookup in the slot list. -/
def lookupSlot (k : String) : Slots → Option Val
  | .nil => none
  | .cons k0 v rest => if k0 == k then some v else lookupSlot k rest

/-- Dictionary assignment: replace in place, or append a new entry. -/
def setSlot (k : String) (v : Val) : Slots → Slots
  | .nil => .cons k v .nil
  | .cons k0 v0 rest =>
    if k0 == k then .cons k0 v rest else .cons k0 v0 (setSlot k v rest)

/-- Python setattr(self, k, v) on an AdvancedConfig: writes the instance
dictionary only; the keylist is untouched. -/
def pySetattr (a : AC) (k : String) (v : Val) : AC :=
  .mk (setSlot k v a.slots) a.keylist

/-- self.keylist.add(k). -/
def addKey (a : AC) (k : String) : AC :=
  if k ∈ a.keylist then a else .mk a.slots (a.keylist ++ [k])

/-- getattr(self, k) restricted to configuration slots (class attributes
such as methods are outside the configuration data model). -/
def pyGetattrOpt (a : AC) (k : String) : Option Val :=
  lookupSlot k a.slots

/-- AdvancedConfig.__getitem__: hasattr then getattr, else KeyError. -/
def pyGetitem (a : AC) (k : String) : Except PyErr Val :=
  match lookupSlot k a.slots with
  | some v => .ok v
  | none => .error .keyError

/-- AdvancedConfig.__setitem__: keylist.add then setattr. -/
def pySetitem (a : AC) (k : String) (v : Val) : AC :=
  pySetattr (addKey a k) k v

/-- The mangled name under which self.__NAME is stored by read. -/
def nameSlot : String := "_AdvancedConfig__NAME"

/-- AdvancedConfig.xsetattr: in load mode a plain setattr plus
keylist.add; in merge mode, when the attribute already exists, the new
value is stripped and appended after a colon (TypeError when the existing
value is a nested object, since instance + str is unsupported), and
otherwise it behaves like load mode. -/
def xsetattr (a : AC) (attr : String) (val : String) : Mode → Except PyErr AC
  | .load => .ok (addKey (pySetattr a attr (.str val)) attr)
  | .merge =>
    match pyGetattrOpt a attr with
    | some (.str old) => .ok (pySetattr a attr (.str (old ++ ":" ++ pyStripWs val)))
    | some (.node _) => .error .typeError
    | none => .ok (addKey (pySetattr a attr (.str val)) attr)

/-- logging.warn message of parse_element for mixed content kinds. -/
def contentWarn (name : String) : String :=
  "More than 1 type of content in node [" ++ name ++ "]"

/-- logging.warn message of parse_element when text wins over other content. -/
def textWarn (name : String) : String :=
  "Node [" ++ name ++ "] has text content. Using this as node value, ignoring elements and attributes"

/-- The attribute assignment loop of parse_element (the while loop over
node.attributes). -/
def setAttrsLoop (a : AC) (mode : Mode) : List (String × String) → Except PyErr AC
  | [] => .ok a
  | (k, v) :: rest =>
    match xsetattr a k v mode with
    | .error e => .error e
    | .ok a1 => setAttrsLoop a1 mode rest

mutual
/-- AdvancedConfig.parse_element.  Returns the updated object and the
warnings logged, or the Python exception that escaped.  The childNodes
loop is parse_childNodes; afterwards the content-kind counters are
evaluated, the collected text pieces are joined and stripped, and either
the text is stored under __TEXT or the attributes are assigned (the loop
over the never-populated child_dict does nothing).  parse_element is only
ever applied to element nodes; a text node returns the object unchanged. -/
def parse_element (self : AC) (mode : Mode) : XNode → Except PyErr (AC × List String)
  | .text _ => .ok (self, [])
  | .elem name attrs children =>
    match parse_childNodes self mode children with
    | .error e => .error e
    | .ok (self1, textPieces, hasText, hasElements, warns) =>
      let hasAttribs := decide (attrs.length > 0)
      let contentCnt := (if hasText then 1 else 0) + (if hasElements then 1 else 0)
        + (if hasAttribs then 1 else 0)
      let warns1 := if contentCnt > 1 then warns ++ [contentWarn name] else warns
      let textL := pyStripWsL (pyJoin [' '] textPieces)
      if textL.length > 0 then
        match xsetattr self1 "__TEXT" (String.mk textL) mode with
        | .error e => .error e
        | .ok self2 =>
          let warns2 := if hasElements || hasAttribs then warns1 ++ [textWarn name] else warns1
          .ok (self2, warns2)
      else
        match setAttrsLoop self1 mode attrs with
        | .error e => .error e
        | .ok self2 => .ok (self2, warns1)

/-- The loop over node.childNodes of parse_element, processed in order.
Returns the mutated object, the stripped text pieces in order, the
hasText and hasElements flags, and the warnings of recursive parses.

For an element child in load mode, a fresh empty AdvancedConfig is
attached under the local name and, because the recursive parse call sits
in the merge branch of the source (see the module docstring above), it is
never parsed.  In merge mode, when the name already exists the code reads
self.d: an AttributeError unless a slot named d exists, in which case the
child object is taken from inside that slot via __getitem__ and parsed in
place; when the name does not exist a fresh object is attached and
parsed. -/
def parse_childNodes (self : AC) (mode : Mode) :
    XNodes → Except PyErr (AC × List (List Char) × Bool × Bool × List String)
  | .nil => .ok (self, [], false, false, [])
  | .cons n rest =>
    match n with
    | .text tv =>
      match parse_childNodes self mode rest with
      | .error e => .error e
      | .ok (s1, tl, _, he, ws) => .ok (s1, pyStripWsL tv.data :: tl, true, he, ws)
    | .elem cn _ _ =>
      match mode with
      | .load =>
        let self1 := pySetattr self cn (.node emptyAC)
        match parse_childNodes self1 .load rest with
        | .error e => .error e
        | .ok (s2, tl, ht, _, ws) => .ok (s2, tl, ht, true, ws)
      | .merge =>
        if (pyGetattrOpt self cn).isSome then
          match pyGetattrOpt self "d" with
          | none => .error .attributeError
          | some (.str _) => .error .typeError
          | some (.node dA) =>
            match lookupSlot cn dA.slots with
            | none => .error .keyError
            | some (.str _) => .error .attributeError
            | some (.node cfgA) =>
              match parse_element cfgA .merge n with
              | .error e => .error e
              | .ok (cfg2, ws1) =>
                let self1 := pySetattr self "d" (.node (pySetattr dA cn (.node cfg2)))
                match parse_childNodes self1 .merge rest with
                | .error e => .error e
                | .ok (s2, tl, ht, _, ws) => .ok (s2, tl, ht, true, ws1 ++ ws)
        else
          match parse_element emptyAC .merge n with
          | .error e => .error e
          | .ok (cfg2, ws1) =>
            let self1 := pySetattr self cn (.node cfg2)
            match parse_childNodes self1 .merge rest with
            | .error e => .error e
            | .ok (s2, tl, ht, _, ws) => .ok (s2, tl, ht, true, ws1 ++ ws)
end

mutual
/-- AdvancedConfig.convert_text: replace every slot holding a nested
object that carries a __TEXT slot by that text value, and recurse into
the other nested objects.  The object itself is never replaced (the
source comment calls this limitation out), and keylists are untouched. -/
def convert_text : AC → AC
  | .mk sl kl => .mk (convertSlots sl) kl

/-- The slot traversal of convert_text (iteration order is immaterial:
each slot is rewritten independently). -/
def convertSlots : Slots → Slots
  | .nil => .nil
  | .cons k v rest => .cons k (convertOne v) (convertSlots rest)

/-- The per-slot action of convert_text. -/
def convertOne : Val → Val
  | .str s => .str s
  | .node a =>
    match a with
    | .mk sl kl =>
      match lookupSlot "__TEXT" sl with
      | some t => t
      | none => .node (.mk (convertSlots sl) kl)
end

/-- AdvancedConfig.read.  The doc argument is the outcome of
xml.dom.minidom.parse: none when parsing raised (malformed or unreadable
document), in which case the failure is logged and the object is returned
unchanged; otherwise self.__NAME is set to the root local name, the root
element is parsed in the given mode, and convert_text runs. -/
def read (a : AC) (doc : Option XDoc) (mode : Mode) : Except PyErr (AC × List String) :=
  match doc with
  | none => .ok (a, [])
  | some d =>
    let a1 := pySetattr a nameSlot (.str d.name)
    match parse_element a1 mode (.elem d.name d.attrs d.children) with
    | .error e => .error e
    | .ok (a2, ws) => .ok (convert_text a2, ws)

/-! ## AdvancedConfig.clean -/

/-- Python s.split(sep) for a string separator; Python raises ValueError
on an empty separator. -/
def splitByStr (sep : String) (s : String) : Except PyErr (List String) :=
  match sep.data with
  | [] => .error .valueError
  | c :: cs => .ok ((pySplit c cs s.data).map String.mk)

/-- The body of one clean iteration: split the entry on the separator,
keep first occurrences, and rejoin. -/
def cleanEntry (sep : String) (s : String) : Except PyErr String :=
  match splitByStr sep s with
  | .error e => .error e
  | .ok parts => .ok (joinStr sep (dedupAcc [] parts))

/-- The loop of AdvancedConfig.clean over self.items() (which iterates
the keylist); each surviving entry must be a string (an AttributeError
escapes otherwise, since nested objects have no split method). -/
def cleanGo (a : AC) (sep : String) : List String → Except PyErr AC
  | [] => .ok a
  | k :: ks =>
    match pyGetitem a k with
    | .error e => .error e
    | .ok (.node _) => .error .attributeError
    | .ok (.str s) =>
      match cleanEntry sep s with
      | .error e => .error e
      | .ok s2 => cleanGo (pySetitem a k (.str s2)) sep ks

/-- AdvancedConfig.clean. -/
def clean (a : AC) (sep : String) : Except PyErr AC :=
  cleanGo a sep a.keylist

/-! ## The CLI session and the print command -/

/-- The mutable interpreter state that do_reset initialises: the xcfg
object, the white and black lists, the list separator, the shell dialect
(none until a sh= command runs, making sh_dialect consult the SHELL
environment variable) and the export-vs-local flag. -/
structure Session where
  xcfg : AC
  wl : List String
  bl : List String
  sep : String
  shell : Option String
  EXPORT_ENV : Bool

/-- XcfgCLI.do_reset: the initial session state. -/
def do_reset : Session :=
  { xcfg := emptyAC, wl := [], bl := [], sep := ":", shell := none, EXPORT_ENV := true }

/-- XcfgCLI.SHELL_DEFAULT. -/
def SHELL_DEFAULT : String := "bash"

/-- The sh-syntax resolver of XcfgCLI (renamed here to sh_dialect):
resolve (pre, mid, wrap) from the session shell (or
else the SHELL environment variable, which selects csh only when "csh"
occurs at an index strictly greater than zero) and the export flag.  The
wrap character is set to a double quote unconditionally before the
dialect branches. -/
def sh_dialect (shellOpt : Option String) (envSHELL : Option String) (exportEnv : Bool) :
    String × String × String :=
  let shell :=
    match shellOpt with
    | some s => s
    | none =>
      match envSHELL with
      | some shellPath => if pyFind shellPath "csh" > 0 then "csh" else SHELL_DEFAULT
      | none => SHELL_DEFAULT
  let wrap := "\""
  if shell == "csh" then
    if exportEnv then ("setenv ", " ", wrap) else ("set ", "=", wrap)
  else
    if exportEnv then ("export ", "=", wrap) else ("", "=", wrap)

/-- Lexicographic string comparison, as Python 2 list.sort compares the
keys; computable by kernel reduction. -/
def pyStrLe : List Char → List Char → Bool
  | [], _ => true
  | _ :: _, [] => false
  | x :: xs, y :: ys => if x = y then pyStrLe xs ys else decide (x < y)

/-- Stable ascending insertion for the key sort. -/
def orderedInsertK (k : String) : List String → List String
  | [] => [k]
  | x :: xs => if pyStrLe k.data x.data then k :: x :: xs else x :: orderedInsertK k xs

/-- The keys.sort() call of do_p: ascending lexicographic sort. -/
def sortKeys : List String → List String
  | [] => []
  | x :: xs => orderedInsertK x (sortKeys xs)

/-- One emitted line of do_p: pre, key, mid, value, with the value wrapped
in the wrap character exactly when it contains a space or an equals
sign (v.find(" ") >= 0 or v.find("=") >= 0). -/
def renderLine (pre mid wrap : String) (k v : String) : String :=
  let w := if pyFind v " " ≥ 0 || pyFind v "=" ≥ 0 then wrap else ""
  pre ++ k ++ mid ++ w ++ v ++ w

/-- The key loop of XcfgCLI.do_p with an empty argument line: skip keys in
a non-empty black list, skip keys outside a non-empty white list, then
look the key up (__getitem__) and print it; a nested-object value raises
AttributeError at v.find. -/
def do_p_go (x : AC) (bl wl : List String) (pre mid wrap : String) :
    List String → Except PyErr (List String)
  | [] => .ok []
  | k :: ks =>
    if bl.length > 0 && bl.contains k then do_p_go x bl wl pre mid wrap ks
    else if wl.length > 0 && !(wl.contains k) then do_p_go x bl wl pre mid wrap ks
    else
      match pyGetitem x k with
      | .error e => .error e
      | .ok (.node _) => .error .attributeError
      | .ok (.str v) =>
        match do_p_go x bl wl pre mid wrap ks with
        | .error e => .error e
        | .ok rest => .ok (renderLine pre mid wrap k v :: rest)

/-- XcfgCLI.do_p with an empty argument line (the regex branch for a
p:REGEX invocation delegates to the external re module and is not
modelled): sort self.xcfg.keys() and run the filtered print loop.  The
envSHELL argument is the SHELL environment variable consulted by
sh_dialect when no sh= command has run. -/
def do_p (st : Session) (envSHELL : Option String) : Except PyErr (List String) :=
  let pmw := sh_dialect st.shell envSHELL st.EXPORT_ENV
  do_p_go st.xcfg st.bl st.wl pmw.1 pmw.2.1 pmw.2.2 (sortKeys st.xcfg.keylist)

/-! ## The environment-import command -/

/-- The process environment table, as a key-value association list (keys
unique in a real environment). -/
abbrev Env := List (String × String)

/-- del os.environ[k] (for every entry bearing the key). -/
def eraseAllKey (k : String) (env : Env) : Env :=
  env.filter (fun p => p.1 != k)

/-- os.environ lookup. -/
def lookupEnv (env : Env) (k : String) : Option String :=
  (env.find? (fun p => p.1 == k)).map (·.2)

/-- The characters of the separator group of the command regex
[-+=:\\;]{0,4}. -/
def opChars : List Char := ['-', '+', '=', ':', '\\', ';']

/-- The regex match shared by do_e, do_wl, do_bl and default:
optional whitespace, up to four separator characters, optional
whitespace, then the greedy remainder. -/
def parseSepLast (line : String) : String × String :=
  let rest := line.data.dropWhile isPySpace
  let sep := (rest.takeWhile (· ∈ opChars)).take 4
  let last := (rest.drop sep.length).dropWhile isPySpace
  (String.mk sep, String.mk last)

/-- The dict.update of self.xcfg.update(os.environ): every entry assigned
through __setitem__. -/
def updateFromEnv (a : AC) : Env → AC
  | [] => a
  | (k, v) :: rest => updateFromEnv (pySetitem a k (.str v)) rest

/-- The selective import loop of do_e over the comma-separated name list:
each name stripped, then looked up in the environment; a missing name is
logged at debug level and skipped. -/
def importNames (a : AC) (env : Env) : List String → AC
  | [] => a
  | n :: ns =>
    match lookupEnv env n with
    | some v => importNames (pySetitem a n (.str v)) env ns
    | none => importNames a env ns

/-- XcfgCLI.do_e: parse the line, unconditionally delete TERMCAP from
os.environ, then either import the whole environment (no separator) or
the selected names (colon separator); any other separator leaves the
session untouched.  Returns the new session and the new environment. -/
def do_e (st : Session) (env : Env) (line : String) : Session × Env :=
  let sl := parseSepLast line
  let env1 := eraseAllKey "TERMCAP" env
  if sl.1 = "" then
    ({ st with xcfg := updateFromEnv st.xcfg env1 }, env1)
  else if sl.1 = ":" then
    let names := (pySplit ',' [] sl.2.data).map (fun l => String.mk (pyStripWsL l))
    ({ st with xcfg := importNames st.xcfg env1 names }, env1)
  else
    (st, env1)

/-! ## The almost-XPath query -/

/-- getattr on a value reached during an axpath walk: configuration slot
lookup on a nested object; an AttributeError on a missing name or on a
plain string. -/
def pyGetattrV (v : Val) (k : String) : Except PyErr Val :=
  match v with
  | .str _ => .error .attributeError
  | .node a =>
    match lookupSlot k a.slots with
    | some w => .ok w
    | none => .error .attributeError

theorem consHead_ne_nil (x : Char) (r : List (List Char)) : consHead x r ≠ [] := by
  cases r <;> simp [consHead]

theorem pySplit_nil (c : Char) (srest : List Char) : pySplit c srest [] = [[]] := by
  simp [pySplit]

theorem pySplit_cons_eq (c : Char) (xs : List Char) :
    pySplit c [] (c :: xs) = [] :: pySplit c [] xs := by
  rw [pySplit]
  simp

theorem pySplit_cons_ne (c x : Char) (xs : List Char) (h : x ≠ c) :
    pySplit c [] (x :: xs) = consHead x (pySplit c [] xs) := by
  rw [pySplit]
  simp [Ne.symm h]

theorem pySplit_ne_nil (c : Char) (srest l : List Char) : pySplit c srest l ≠ [] := by
  cases l with
  | nil => rw [pySplit_nil]; simp
  | cons x xs =>
    rw [pySplit]
    split
    · simp
    · exact consHead_ne_nil _ _

theorem pyJoin_cons (sep a : List Char) (r : List (List Char)) (h : r ≠ []) :
    pyJoin sep (a :: r) = a ++ sep ++ pyJoin sep r := by
  cases r with
  | nil => exact absurd rfl h
  | cons y t => rfl

/-- Joining the pieces of a single-character split recovers the string. -/
theorem join_split (c : Char) (l : List Char) : pyJoin [c] (pySplit c [] l) = l := by
  induction l with
  | nil => rw [pySplit_nil]; rfl
  | cons x xs ih =>
    by_cases hx : x = c
    · subst hx
      rw [pySplit_cons_eq, pyJoin_cons _ _ _ (pySplit_ne_nil _ _ _)]
      simp [ih]
    · rw [pySplit_cons_ne _ _ _ hx]
      obtain ⟨h, t, hsplit⟩ : ∃ h t, pySplit c [] xs = h :: t := by
        cases hs : pySplit c [] xs with
        | nil => exact absurd hs (pySplit_ne_nil _ _ _)
        | cons h t => exact ⟨h, t, rfl⟩
      rw [hsplit] at ih ⊢
      cases t with
      | nil => simpa [consHead, pyJoin] using congrArg (x :: ·) ih
      | cons y t2 =>
        rw [pyJoin_cons _ _ _ (by simp)] at ih
        simp [consHead, pyJoin_cons, ih]

theorem dropTrailing_length_le (c : Char) (l : List Char) :
    (dropTrailing c l).length ≤ l.length := by
  induction l with
  | nil => simp [dropTrailing]
  | cons x xs ih =>
    rw [dropTrailing]
    split
    · simp
    · simpa using ih

theorem length_dropWhile_le (p : Char → Bool) (l : List Char) :
    (l.dropWhile p).length ≤ l.length := by
  induction l with
  | nil => simp
  | cons x xs ih =>
    rw [List.dropWhile_cons]
    split
    · exact le_trans ih (by simp)
    · simp

theorem pyStripCharL_length_le (c : Char) (l : List Char) :
    (pyStripCharL c l).length ≤ l.length :=
  le_trans (dropTrailing_length_le _ _) (length_dropWhile_le _ l)

/-- Length decrease of the recursive axpath call. -/
theorem axpath_dec (p : List Char)
    (h : 2 ≤ (pySplit '/' [] (pyStripCharL '/' p)).length) :
    (pyJoin ['/'] (pySplit '/' [] (pyStripCharL '/' p)).tail).length < p.length := by
  obtain ⟨h1, t1, t2, hsplit⟩ :
      ∃ h1 t1 t2, pySplit '/' [] (pyStripCharL '/' p) = h1 :: t1 :: t2 := by
    cases hs : pySplit '/' [] (pyStripCharL '/' p) with
    | nil => rw [hs] at h; simp at h
    | cons h1 t =>
      cases t with
      | nil => rw [hs] at h; simp at h
      | cons t1 t2 => exact ⟨h1, t1, t2, rfl⟩
  have hj := join_split '/' (pyStripCharL '/' p)
  rw [hsplit, pyJoin_cons _ _ _ (by simp)] at hj
  have hlen : (pyStripCharL '/' p).length ≤ p.length := pyStripCharL_length_le _ _
  have := congrArg List.length hj
  simp only [List.length_append, List.length_cons, List.length_nil] at this
  simp only [hsplit, List.tail_cons]
  omega

/-- AdvancedConfig.axpath: strip leading and trailing slashes, split on
the slash, and walk.  The zero-segment branch returns the object itself;
one segment is a getattr; more than one recurses on the remaining
segments rejoined with slashes. -/
def axpath (v : Val) (path : String) : Except PyErr Val :=
  if _h0 : (pySplit '/' [] (pyStripCharL '/' path.data)).length = 0 then .ok v
  else if _h1 : (pySplit '/' [] (pyStripCharL '/' path.data)).length = 1 then
    pyGetattrV v (String.mk ((pySplit '/' [] (pyStripCharL '/' path.data)).headD []))
  else
    match pyGetattrV v (String.mk ((pySplit '/' [] (pyStripCharL '/' path.data)).headD [])) with
    | .error e => .error e
    | .ok c =>
      axpath c (String.mk (pyJoin ['/'] (pySplit '/' [] (pyStripCharL '/' path.data)).tail))
termination_by path.data.length
decreasing_by
  exact axpath_dec path.data (by omega)

/-- The segment walk that axpath turns out to implement (the second
definition of the refinement comparison; segments are consumed one at a
time from the front). -/
def walkSegs (v : Val) : List String → Except PyErr Val
  | [] => .ok v
  | s :: rest =>
    match pyGetattrV v s with
    | .error e => .error e
    | .ok c => walkSegs c rest

/-! ## C8: what axpath computes -/

/-- The non-empty segments of a path, in order: split the slash-stripped
path on the slash and drop the empty pieces that consecutive slashes
produce. -/
def segsOf (p : String) : List String :=
  ((pySplit '/' [] (pyStripCharL '/' p.data)).filter (fun x => decide (x ≠ []))).map String.mk

theorem pySplit_mem_sep_free (c : Char) (l : List Char) :
    ∀ x ∈ pySplit c [] l, c ∉ x := by
  induction l with
  | nil =>
    rw [pySplit_nil]
    intro x hx
    simp at hx
    simp [hx]
  | cons a xs ih =>
    by_cases ha : a = c
    · subst ha
      rw [pySplit_cons_eq]
      intro x hx
      rcases List.mem_cons.mp hx with rfl | hx2
      · simp
      · exact ih x hx2
    · rw [pySplit_cons_ne c a xs ha]
      obtain ⟨h, t, hsplit⟩ : ∃ h t, pySplit c [] xs = h :: t := by
        cases hs : pySplit c [] xs with
        | nil => exact absurd hs (pySplit_ne_nil _ _ _)
        | cons h t => exact ⟨h, t, rfl⟩
      rw [hsplit, consHead]
      intro x hx
      rcases List.mem_cons.mp hx with rfl | hx2
      · intro hc
        rcases List.mem_cons.mp hc with hc1 | hc2
        · exact ha hc1.symm
        · exact ih h (by rw [hsplit]; simp) hc2
      · exact ih x (by rw [hsplit]; simp [hx2])

theorem pySplit_sep_free (c : Char) (l : List Char) (h : c ∉ l) : pySplit c [] l = [l] := by
  induction l with
  | nil => exact pySplit_nil c []
  | cons x xs ih =>
    have hx : x ≠ c := fun he => h (he ▸ List.mem_cons_self x xs)
    rw [pySplit_cons_ne c x xs hx, ih (fun hm => h (List.mem_cons_of_mem x hm))]
    rfl

theorem pySplit_append_sep (c : Char) (l r : List Char) (h : c ∉ l) :
    pySplit c [] (l ++ c :: r) = l :: pySplit c [] r := by
  induction l with
  | nil => simpa using pySplit_cons_eq c r
  | cons x xs ih =>
    have hx : x ≠ c := fun he => h (he ▸ List.mem_cons_self x xs)
    rw [List.cons_append, pySplit_cons_ne c x _ hx, ih (fun hm => h (List.mem_cons_of_mem x hm))]
    rfl

theorem split_join (c : Char) (segs : List (List Char)) (h1 : segs ≠ [])
    (h2 : ∀ x ∈ segs, c ∉ x) : pySplit c [] (pyJoin [c] segs) = segs := by
  induction segs with
  | nil => exact absurd rfl h1
  | cons s rest ih =>
    cases rest with
    | nil =>
      show pySplit c [] (pyJoin [c] [s]) = [s]
      exact pySplit_sep_free c s (h2 s (by simp))
    | cons s2 rest2 =>
      rw [pyJoin_cons [c] s (s2 :: rest2) (by simp), List.append_assoc, List.singleton_append,
        pySplit_append_sep c s _ (h2 s (by simp)),
        ih (by simp) (fun x hx => h2 x (List.mem_cons_of_mem s hx))]

theorem split_head_ne_nil (c a : Char) (xs : List Char) (ha : a ≠ c) :
    ∃ h t, pySplit c [] (a :: xs) = (a :: h) :: t := by
  obtain ⟨h, t, hsplit⟩ : ∃ h t, pySplit c [] xs = h :: t := by
    cases hs : pySplit c [] xs with
    | nil => exact absurd hs (pySplit_ne_nil _ _ _)
    | cons h t => exact ⟨h, t, rfl⟩
  exact ⟨h, t, by rw [pySplit_cons_ne c a xs ha, hsplit, consHead]⟩

theorem split_getLast_ne_nil (c : Char) (l : List Char) :
    ∀ b, l.getLast? = some b → b ≠ c →
      ∀ s, (pySplit c [] l).getLast? = some s → s ≠ [] := by
  induction l with
  | nil => intro b hb; simp at hb
  | cons a xs ih =>
    intro b hb hbc s hs
    cases xs with
    | nil =>
      have hab : a = b := by simpa using hb
      subst hab
      rw [pySplit_cons_ne c a [] hbc, pySplit_nil, consHead] at hs
      simp at hs
      simp [← hs]
    | cons y ys =>
      rw [List.getLast?_cons_cons] at hb
      obtain ⟨h2, t2, hsplit⟩ : ∃ h2 t2, pySplit c [] (y :: ys) = h2 :: t2 := by
        cases hq : pySplit c [] (y :: ys) with
        | nil => exact absurd hq (pySplit_ne_nil _ _ _)
        | cons h2 t2 => exact ⟨h2, t2, rfl⟩
      by_cases ha : a = c
      · subst ha
        rw [pySplit_cons_eq, hsplit, List.getLast?_cons_cons, ← hsplit] at hs
        exact ih b hb hbc s hs
      · rw [pySplit_cons_ne c a _ ha, hsplit, consHead] at hs
        cases t2 with
        | nil =>
          simp at hs
          have hsl := ih b hb hbc h2 (by rw [hsplit]; rfl)
          subst hs
          simp
        | cons u t3 =>
          rw [List.getLast?_cons_cons] at hs
          exact ih b hb hbc s (by rw [hsplit, List.getLast?_cons_cons]; exact hs)

theorem dropWhile_first_false {α : Type} (p : α → Bool) :
    ∀ (l : List α) a t, l.dropWhile p = a :: t → p a = false := by
  intro l
  induction l with
  | nil => intro a t h; simp at h
  | cons x xs ih =>
    intro a t h
    rw [List.dropWhile_cons] at h
    split at h
    · exact ih a t h
    · cases h
      simp_all

theorem dropTrailing_head (c : Char) :
    ∀ (m : List Char) x r, dropTrailing c m = x :: r → m.head? = some x := by
  intro m
  cases m with
  | nil => intro x r h; simp [dropTrailing] at h
  | cons y ys =>
    intro x r h
    rw [dropTrailing] at h
    split at h
    · cases h
    · cases h
      rfl

theorem dropTrailing_getLast_ne (c : Char) :
    ∀ (l : List Char) b, (dropTrailing c l).getLast? = some b → b ≠ c := by
  intro l
  induction l with
  | nil => intro b hb; simp [dropTrailing] at hb
  | cons y ys ih =>
    intro b hb
    rw [dropTrailing] at hb
    split at hb
    · simp at hb
    · rename_i hcond
      cases hr : dropTrailing c ys with
      | nil =>
        rw [hr] at hb hcond
        simp at hb hcond
        subst hb
        intro he
        exact hcond (by simp [he])
      | cons u t =>
        rw [hr] at hb
        rw [List.getLast?_cons_cons] at hb
        exact ih b (by rw [hr]; exact hb)

theorem dropTrailing_id (c : Char) :
    ∀ (l : List Char) b, l.getLast? = some b → b ≠ c → dropTrailing c l = l := by
  intro l
  induction l with
  | nil => intro b hb; simp at hb
  | cons y ys ih =>
    intro b hb hbc
    cases ys with
    | nil =>
      simp at hb
      subst hb
      rw [dropTrailing]
      simp [dropTrailing, hbc]
    | cons u t =>
      rw [List.getLast?_cons_cons] at hb
      have hr := ih b hb hbc
      rw [dropTrailing, hr]
      simp

theorem join_getLast (c : Char) :
    ∀ (segs : List (List Char)) s, segs.getLast? = some s → s ≠ [] →
      (pyJoin [c] segs).getLast? = s.getLast? := by
  intro segs
  induction segs with
  | nil => intro s hs; simp at hs
  | cons x rest ih =>
    intro s hs hsne
    cases rest with
    | nil =>
      simp at hs
      subst hs
      rfl
    | cons y t =>
      rw [List.getLast?_cons_cons] at hs
      have hrec := ih s hs hsne
      have hne : pyJoin [c] (y :: t) ≠ [] := by
        intro hnil
        rw [hnil] at hrec
        simp at hrec
        obtain ⟨b, hb⟩ := Option.isSome_iff_exists.mp (List.getLast?_isSome.mpr hsne)
        rw [hb] at hrec
        exact Option.noConfusion hrec
      rw [pyJoin_cons [c] x (y :: t) (by simp), List.getLast?_append]
      obtain ⟨b, hb⟩ : ∃ b, (pyJoin [c] (y :: t)).getLast? = some b := by
        rw [hrec]
        exact Option.isSome_iff_exists.mp (List.getLast?_isSome.mpr hsne)
      rw [hb, ← hrec, hb]
      rfl

theorem stripLeft_join (c : Char) :
    ∀ (segs : List (List Char)), (∀ x ∈ segs, c ∉ x) →
      (pyJoin [c] segs).dropWhile (· == c)
        = pyJoin [c] (segs.dropWhile (fun x => decide (x = []))) := by
  intro segs
  induction segs with
  | nil => intro _; rfl
  | cons s rest ih =>
    intro h2
    cases s with
    | nil =>
      cases rest with
      | nil => rfl
      | cons y t =>
        rw [pyJoin_cons [c] [] (y :: t) (by simp), List.nil_append, List.singleton_append,
          List.dropWhile_cons_of_pos (by simp),
          List.dropWhile_cons_of_pos (p := fun x => decide (x = [])) (by simp)]
        exact ih (fun x hx => h2 x (List.mem_cons_of_mem [] hx))
    | cons a s2 =>
      have hac : ¬ ((a == c) = true) := by
        have hmem : c ∉ a :: s2 := h2 (a :: s2) (by simp)
        simp only [List.mem_cons, not_or] at hmem
        simp [beq_eq_false_iff_ne.mpr (fun he => hmem.1 he.symm)]
      cases rest with
      | nil =>
        show List.dropWhile (· == c) (a :: s2)
          = pyJoin [c] (List.dropWhile (fun x => decide (x = [])) [a :: s2])
        rw [List.dropWhile_cons_of_neg (p := fun x => x == c) hac,
          List.dropWhile_cons_of_neg (p := fun x => decide (x = [])) (by simp)]
        rfl
      | cons y t =>
        rw [pyJoin_cons [c] (a :: s2) (y :: t) (by simp), List.cons_append, List.cons_append,
          List.dropWhile_cons_of_neg (p := fun x => x == c) hac,
          List.dropWhile_cons_of_neg (p := fun x => decide (x = [])) (by simp)]
        rw [pyJoin_cons [c] (a :: s2) (y :: t) (by simp), List.cons_append, List.cons_append]

theorem dropWhile_getLast {α : Type} (p : α → Bool) :
    ∀ (l : List α), l.dropWhile p ≠ [] → (l.dropWhile p).getLast? = l.getLast? := by
  intro l
  induction l with
  | nil => intro h; simp at h
  | cons x xs ih =>
    intro h
    rw [List.dropWhile_cons]
    rw [List.dropWhile_cons] at h
    split at h
    · rename_i hp
      rw [if_pos hp]
      have hxs : xs ≠ [] := by
        intro he
        rw [he] at h
        simp at h
      obtain ⟨y, ys, rfl⟩ := List.exists_cons_of_ne_nil hxs
      rw [List.getLast?_cons_cons]
      exact ih h
    · rename_i hp
      rw [if_neg hp]

theorem dropWhile_eq_nil_all {α : Type} (p : α → Bool) :
    ∀ (l : List α), l.dropWhile p = [] → ∀ x ∈ l, p x = true := by
  intro l
  induction l with
  | nil => intro _ x hx; simp at hx
  | cons a xs ih =>
    intro h x hx
    rw [List.dropWhile_cons] at h
    split at h
    · rename_i hp
      rcases List.mem_cons.mp hx with rfl | hx2
      · exact hp
      · exact ih h x hx2
    · exact absurd h (by simp)

theorem join_ne_nil (c : Char) (s : List Char) (rest : List (List Char)) (h : s ≠ []) :
    pyJoin [c] (s :: rest) ≠ [] := by
  cases rest with
  | nil => exact h
  | cons y t =>
    rw [pyJoin_cons [c] s (y :: t) (by simp)]
    simp [h]

theorem filter_dropWhile_empty :
    ∀ (l : List (List Char)),
      (l.dropWhile (fun x => decide (x = []))).filter (fun x => decide (x ≠ []))
        = l.filter (fun x => decide (x ≠ [])) := by
  intro l
  induction l with
  | nil => rfl
  | cons x xs ih =>
    rw [List.dropWhile_cons]
    by_cases hx : x = []
    · rw [if_pos (by simp [hx]), ih, List.filter_cons_of_neg (by simp [hx])]
    · rw [if_neg (by simp [hx])]

/-- Membership survives dropWhile. -/
theorem mem_of_mem_dropWhileL {α : Type} (p : α → Bool) :
    ∀ (l : List α) x, x ∈ l.dropWhile p → x ∈ l := by
  intro l
  induction l with
  | nil => intro x hx; simp at hx
  | cons a xs ih =>
    intro x hx
    rw [List.dropWhile_cons] at hx
    split at hx
    · exact List.mem_cons_of_mem a (ih x hx)
    · exact hx

/-- What axpath actually computes: a lookup of the empty name when the
stripped path is empty, and otherwise the front-to-back walk over the
non-empty segments (empty segments arising from consecutive slashes are
swallowed when the remainder is rejoined and re-stripped). -/
theorem axpath_eq_walk (v : Val) (p : String) :
    axpath v p
      = if pyStripCharL '/' p.data = [] then pyGetattrV v ""
        else walkSegs v (segsOf p) := by
  generalize hn : p.data.length = n
  induction n using Nat.strong_induction_on generalizing v p with
  | _ n ihn =>
  subst hn
  rw [axpath]
  rw [dif_neg (fun h0 => pySplit_ne_nil '/' [] _ (List.length_eq_zero.mp h0))]
  rcases hparts : pySplit '/' [] (pyStripCharL '/' p.data) with _ | ⟨p0, ps⟩
  · exact absurd hparts (pySplit_ne_nil _ _ _)
  cases ps with
  | nil =>
    rw [dif_pos (by simp)]
    simp only [List.headD_cons]
    by_cases hst : pyStripCharL '/' p.data = []
    · rw [if_pos hst]
      rw [hst, pySplit_nil] at hparts
      injection hparts with h1 _
      rw [← h1]
    · rw [if_neg hst]
      have hj := join_split '/' (pyStripCharL '/' p.data)
      rw [hparts] at hj
      have hp0 : p0 = pyStripCharL '/' p.data := hj
      rw [segsOf, hparts, List.filter_cons_of_pos (by simp [hp0, hst]), List.map_cons]
      show pyGetattrV v (String.mk p0)
        = match pyGetattrV v (String.mk p0) with
          | .error e => .error e
          | .ok c => walkSegs c (List.map String.mk (List.filter (fun x => decide (x ≠ [])) []))
      cases pyGetattrV v (String.mk p0) with
      | error e => rfl
      | ok c => rfl
  | cons p1 rest =>
    rw [dif_neg (by simp)]
    simp only [List.headD_cons, List.tail_cons]
    have hst : pyStripCharL '/' p.data ≠ [] := by
      intro he
      rw [he, pySplit_nil] at hparts
      cases hparts
    rw [if_neg hst]
    -- the head piece is non-empty: the stripped path starts with a
    -- character other than the slash
    obtain ⟨a, st2, hsteq⟩ := List.exists_cons_of_ne_nil hst
    have hahead : (a == '/') = false := by
      have hh := dropTrailing_head '/' (p.data.dropWhile (· == '/')) a st2 hsteq
      obtain ⟨a2, t2, hdw⟩ : ∃ a2 t2, p.data.dropWhile (· == '/') = a2 :: t2 := by
        cases hq2 : p.data.dropWhile (· == '/') with
        | nil => rw [hq2] at hh; simp at hh
        | cons a2 t2 => exact ⟨a2, t2, rfl⟩
      rw [hdw] at hh
      simp only [List.head?_cons, Option.some.injEq] at hh
      rw [← hh]
      exact dropWhile_first_false _ p.data a2 t2 hdw
    have hane : a ≠ '/' := fun he => by simp [he] at hahead
    have hp0ne : p0 ≠ [] := by
      obtain ⟨h2, t2, hs2⟩ := split_head_ne_nil '/' a st2 hane
      rw [hsteq, hs2] at hparts
      injection hparts with h3 _
      rw [← h3]
      simp
    -- the last piece is non-empty: the stripped path ends with a
    -- character other than the slash
    obtain ⟨bl, hbl⟩ : ∃ b, (pyStripCharL '/' p.data).getLast? = some b :=
      Option.isSome_iff_exists.mp (List.getLast?_isSome.mpr hst)
    have hblne : bl ≠ '/' := dropTrailing_getLast_ne '/' _ bl hbl
    obtain ⟨sl, hsl⟩ : ∃ s, ((p0 :: p1 :: rest) : List (List Char)).getLast? = some s :=
      Option.isSome_iff_exists.mp (List.getLast?_isSome.mpr (by simp))
    have hslne : sl ≠ [] :=
      split_getLast_ne_nil '/' _ bl hbl hblne sl (by rw [hparts]; exact hsl)
    have hsl2 : ((p1 :: rest) : List (List Char)).getLast? = some sl := by
      rw [← List.getLast?_cons_cons (a := p0)]
      exact hsl
    -- all pieces are slash-free
    have hfree : ∀ x ∈ (p0 :: p1 :: rest : List (List Char)), '/' ∉ x := by
      intro x hx
      exact pySplit_mem_sep_free '/' _ x (by rw [hparts]; exact hx)
    have hfree1 : ∀ x ∈ (p1 :: rest : List (List Char)), '/' ∉ x :=
      fun x hx => hfree x (List.mem_cons_of_mem p0 hx)
    -- the rejoined remainder and its leading-empty-free form
    have hps2ne : (p1 :: rest).dropWhile (fun x => decide (x = [])) ≠ [] := by
      intro he
      have hall := dropWhile_eq_nil_all _ (p1 :: rest) he
      have hsl3 := hall sl (List.mem_of_getLast?_eq_some hsl2)
      simp at hsl3
      exact hslne hsl3
    obtain ⟨s0, ps3, hps2eq⟩ := List.exists_cons_of_ne_nil hps2ne
    have hs0ne : s0 ≠ [] := by
      have hf := dropWhile_first_false (fun x => decide (x = [])) (p1 :: rest) s0 ps3 hps2eq
      simpa using hf
    have hps2last :
        ((p1 :: rest).dropWhile (fun x => decide (x = []))).getLast? = some sl := by
      rw [dropWhile_getLast _ (p1 :: rest) (by rw [hps2eq]; simp)]
      exact hsl2
    have hps2free : ∀ x ∈ (p1 :: rest).dropWhile (fun x => decide (x = [])), '/' ∉ x :=
      fun x hx => hfree1 x (mem_of_mem_dropWhileL _ (p1 :: rest) x hx)
    -- strip of the rejoined remainder
    have hstripq : pyStripCharL '/' (pyJoin ['/'] (p1 :: rest))
        = pyJoin ['/'] ((p1 :: rest).dropWhile (fun x => decide (x = []))) := by
      rw [pyStripCharL, stripLeft_join '/' (p1 :: rest) hfree1]
      obtain ⟨b2, hb2⟩ : ∃ b2,
          (pyJoin ['/'] ((p1 :: rest).dropWhile (fun x => decide (x = [])))).getLast?
            = some b2 := by
        rw [join_getLast '/' _ sl hps2last hslne]
        exact Option.isSome_iff_exists.mp (List.getLast?_isSome.mpr hslne)
      refine dropTrailing_id '/' _ b2 hb2 ?_
      have hj2 := join_getLast '/' _ sl hps2last hslne
      rw [hj2] at hb2
      have hbmem : b2 ∈ sl := List.mem_of_getLast?_eq_some hb2
      have hnot : '/' ∉ sl := hps2free sl (List.mem_of_getLast?_eq_some hps2last)
      exact fun he => hnot (he ▸ hbmem)
    have hjoinne :
        pyJoin ['/'] ((p1 :: rest).dropWhile (fun x => decide (x = []))) ≠ [] := by
      rw [hps2eq]
      exact join_ne_nil '/' s0 ps3 hs0ne
    -- length decrease for the inductive hypothesis
    have hlen : (pyJoin ['/'] (p1 :: rest)).length < p.data.length := by
      have hdec := axpath_dec p.data (by rw [hparts]; simp)
      rw [hparts] at hdec
      exact hdec
    -- the recursive call walks the remaining non-empty segments
    have hihc : ∀ c2 : Val, axpath c2 (String.mk (pyJoin ['/'] (p1 :: rest)))
        = walkSegs c2 (List.map String.mk
            (List.filter (fun x => decide (x ≠ [])) (p1 :: rest))) := by
      intro c2
      have hb := ihn (pyJoin ['/'] (p1 :: rest)).length hlen c2
        (String.mk (pyJoin ['/'] (p1 :: rest))) rfl
      rw [hb, if_neg (fun he => hjoinne (hstripq ▸ he))]
      rw [segsOf]
      show walkSegs c2
          ((List.filter (fun x => decide (x ≠ []))
            (pySplit '/' [] (pyStripCharL '/' (pyJoin ['/'] (p1 :: rest))))).map String.mk)
        = _
      rw [hstripq, split_join '/' _ hps2ne hps2free, filter_dropWhile_empty]
    -- identify the emitted segments of the whole path
    have hsegsp : segsOf p = String.mk p0 :: List.map String.mk
        (List.filter (fun x => decide (x ≠ [])) (p1 :: rest)) := by
      rw [segsOf, hparts, List.filter_cons_of_pos (by simp [hp0ne]), List.map_cons]
    rw [hsegsp, walkSegs]
    cases pyGetattrV v (String.mk p0) with
    | error e => rfl
    | ok c => exact hihc c

/-! ## The key sort is the lexicographic sort -/

theorem pyStrLe_iff_not_lt (la : List Char) :
    ∀ lb, pyStrLe la lb = true ↔ ¬ List.lt lb la := by
  induction la with
  | nil =>
    intro lb
    exact iff_of_true rfl (fun h => nomatch h)
  | cons x xs ih =>
    intro lb
    cases lb with
    | nil =>
      refine iff_of_false (by simp [pyStrLe]) (fun h => h (List.lt.nil x xs))
    | cons y ys =>
      by_cases hxy : x = y
      · subst hxy
        have hstep : List.lt (x :: ys) (x :: xs) ↔ List.lt ys xs := by
          constructor
          · intro h
            cases h with
            | head _ _ h1 => exact absurd h1 (lt_irrefl x)
            | tail _ _ h3 => exact h3
          · intro h
            exact List.lt.tail (lt_irrefl x) (lt_irrefl x) h
        simpa [pyStrLe, hstep] using ih ys
      · rcases lt_or_gt_of_ne hxy with hlt | hgt
        · refine iff_of_true ?_ ?_
          · simp [pyStrLe, hxy, hlt]
          · intro h
            cases h with
            | head _ _ h1 => exact absurd hlt (lt_asymm h1)
            | tail _ h2 _ => exact h2 hlt
        · refine iff_of_false ?_ ?_
          · simp [pyStrLe, hxy, lt_asymm hgt]
          · exact fun h => h (List.lt.head ys xs hgt)

/-- The hand-rolled comparison agrees with the lexicographic order on
strings. -/
theorem pyStrLe_iff (a b : String) : pyStrLe a.data b.data = true ↔ a ≤ b := by
  rw [String.le_iff_toList_le, ← not_lt]
  have h2 : (b.toList < a.toList) ↔ List.lt b.data a.data := by
    show List.Lex (· < ·) b.data a.data ↔ List.lt b.data a.data
    exact (List.lt_iff_lex_lt b.data a.data).symm
  rw [h2]
  exact pyStrLe_iff_not_lt a.data b.data

theorem mem_orderedInsertK (k a : String) (l : List String) :
    a ∈ orderedInsertK k l ↔ a = k ∨ a ∈ l := by
  induction l with
  | nil => simp [orderedInsertK]
  | cons x xs ih =>
    rw [orderedInsertK]
    split
    · simp
    · simp [List.mem_cons, ih]
      tauto

theorem mem_sortKeys (a : String) (l : List String) : a ∈ sortKeys l ↔ a ∈ l := by
  induction l with
  | nil => simp [sortKeys]
  | cons x xs ih => simp [sortKeys, mem_orderedInsertK, ih]

theorem sorted_orderedInsertK (k : String) (l : List String)
    (h : List.Sorted (· ≤ ·) l) : List.Sorted (· ≤ ·) (orderedInsertK k l) := by
  induction l with
  | nil => simp [orderedInsertK]
  | cons x xs ih =>
    rw [orderedInsertK]
    rw [List.sorted_cons] at h
    split
    case isTrue hle =>
      have hkx : k ≤ x := (pyStrLe_iff k x).mp hle
      refine List.sorted_cons.mpr ⟨?_, List.sorted_cons.mpr h⟩
      intro b hb
      rcases List.mem_cons.mp hb with rfl | hbxs
      · exact hkx
      · exact le_trans hkx (h.1 b hbxs)
    case isFalse hnle =>
      have hxk : x ≤ k := le_of_not_le (fun hc => hnle ((pyStrLe_iff k x).mpr hc))
      refine List.sorted_cons.mpr ⟨?_, ih h.2⟩
      intro b hb
      rcases (mem_orderedInsertK k b xs).mp hb with rfl | hbxs
      · exact hxk
      · exact h.1 b hbxs

theorem sorted_sortKeys (l : List String) : List.Sorted (· ≤ ·) (sortKeys l) := by
  induction l with
  | nil => simp [sortKeys]
  | cons x xs ih => exact sorted_orderedInsertK x (sortKeys xs) ih

/-! ## Characterising do_p -/

/-- Every keylist entry is bound to a string slot (the well-formedness
under which printing cannot raise). -/
def strOnlyB (a : AC) : Bool :=
  a.keylist.all (fun k =>
    match lookupSlot k a.slots with
    | some (.str _) => true
    | _ => false)

/-- The string bound to a key (unspecified default for non-string slots). -/
def strValOf (a : AC) (k : String) : String :=
  match lookupSlot k a.slots with
  | some (.str s) => s
  | _ => ""

/-- The black-list/white-list filter of the do_p loop. -/
def survives (bl wl : List String) (k : String) : Bool :=
  !(bl.length > 0 && bl.contains k) && !(wl.length > 0 && !(wl.contains k))

/-- The keys do_p emits, in emission order. -/
def survivors (st : Session) : List String :=
  (sortKeys st.xcfg.keylist).filter (survives st.bl st.wl)

theorem strOnlyB_lookup (a : AC) (k : String) (h : strOnlyB a = true)
    (hk : k ∈ a.keylist) : ∃ s, lookupSlot k a.slots = some (Val.str s) := by
  have hall := (List.all_eq_true.mp h) k hk
  cases hl : lookupSlot k a.slots with
  | none => rw [hl] at hall; simp at hall
  | some v =>
    cases v with
    | str s => exact ⟨s, rfl⟩
    | node _ => rw [hl] at hall; simp at hall

theorem do_p_go_spec (x : AC) (bl wl : List String) (pre mid wrap : String)
    (ks : List String) (h : ∀ k ∈ ks, ∃ s, lookupSlot k x.slots = some (Val.str s)) :
    do_p_go x bl wl pre mid wrap ks
      = .ok ((ks.filter (survives bl wl)).map
          (fun k => renderLine pre mid wrap k (strValOf x k))) := by
  induction ks with
  | nil => rfl
  | cons k ks ih =>
    obtain ⟨s, hs⟩ := h k (by simp)
    have hrest := ih (fun k2 hk2 => h k2 (by simp [hk2]))
    rw [do_p_go]
    by_cases hbl : (decide (bl.length > 0) && bl.contains k) = true
    · have hsurv : survives bl wl k = false := by
        simp only [survives]
        rw [hbl]
        rfl
      rw [if_pos hbl, hrest, List.filter_cons_of_neg (by simp [hsurv])]
    · rw [if_neg hbl]
      by_cases hwl : (decide (wl.length > 0) && !(wl.contains k)) = true
      · have hsurv : survives bl wl k = false := by
          simp only [survives]
          rw [hwl]
          simp
        rw [if_pos hwl, hrest, List.filter_cons_of_neg (by simp [hsurv])]
      · have hsurv : survives bl wl k = true := by
          rw [Bool.not_eq_true] at hbl hwl
          simp only [survives]
          rw [hbl, hwl]
          rfl
        have hval : strValOf x k = s := by simp [strValOf, hs]
        rw [if_neg hwl, List.filter_cons_of_pos (by simp [hsurv])]
        simp only [pyGetitem, hs, hrest, List.map_cons, hval]

/-- The spine of do_p under the string-only well-formedness: the output is
the render of the surviving keys in sorted order. -/
theorem do_p_spec (st : Session) (env : Option String) (h : strOnlyB st.xcfg = true) :
    do_p st env = .ok ((survivors st).map (fun k =>
      renderLine (sh_dialect st.shell env st.EXPORT_ENV).1
        (sh_dialect st.shell env st.EXPORT_ENV).2.1
        (sh_dialect st.shell env st.EXPORT_ENV).2.2 k (strValOf st.xcfg k))) := by
  unfold do_p survivors
  exact do_p_go_spec _ _ _ _ _ _ _
    (fun k hk => strOnlyB_lookup _ k h ((mem_sortKeys k _).mp hk))

/-! ## Substring search facts for the quoting rule -/

theorem findSub_single_isSome (c : Char) (l : List Char) :
    ∀ i, (findSub [c] l i).isSome = true ↔ c ∈ l := by
  induction l with
  | nil => intro i; simp [findSub]
  | cons x xs ih =>
    intro i
    rw [findSub]
    by_cases hc : c = x
    · subst hc
      simp [List.isPrefixOf]
    · have : ([c].isPrefixOf (x :: xs)) = false := by
        simp [List.isPrefixOf, hc]
      simp [this, ih, hc]

theorem pyFind_single_nonneg (s sub : String) (c : Char) (h : sub.data = [c]) :
    pyFind s sub ≥ 0 ↔ c ∈ s.data := by
  rw [pyFind, h]
  rcases hf : findSub [c] s.data 0 with _ | i
  · rw [← findSub_single_isSome c s.data 0, hf]
    simp
  · rw [← findSub_single_isSome c s.data 0, hf]
    simp

/-! ## Scenario documents -/

/-- The s1.xcfg document of the module docstring. -/
def s1doc : XDoc := ⟨"simple1", [("foo", "bar"), ("zip", "zap")], .nil⟩

/-- The s2.xcfg document of the module docstring, with the whitespace
text nodes that xml.dom.minidom reports between the child elements. -/
def s2doc : XDoc :=
  ⟨"simple2", [("zip", "bong"), ("HOME", "/tmp")],
    .cons (.text "\n   ")
      (.cons (.elem "ping" [] (.cons (.text " pow ") .nil))
        (.cons (.text "\n   ")
          (.cons (.elem "blort" [] (.cons (.text " wibble ") .nil))
            (.cons (.text "\n") .nil))))⟩

/-- The outcome of xcfg load:s1.xcfg load:s2.xcfg sh=bash p. -/
def c1run : Except PyErr (List String) :=
  match read emptyAC (some s1doc) .load with
  | .error e => .error e
  | .ok (a1, _) =>
    match read a1 (some s2doc) .load with
    | .error e => .error e
    | .ok (a2, _) => do_p { do_reset with xcfg := a2, shell := some "bash" } none

/-- The docstring example of parse_element: an attribute and a child
element sharing the name bar. -/
def c2doc : XDoc :=
  ⟨"foo", [("bar", "abc")], .cons (.elem "bar" [] (.cons (.text " 42 ") .nil)) .nil⟩

/-- A document with one nested element, used to probe merge mode twice. -/
def c4doc : XDoc := ⟨"r", [], .cons (.elem "c" [("a", "1")] .nil) .nil⟩

/-- Merging c4doc twice into a fresh configuration. -/
def c4run : Except PyErr (AC × List String) :=
  match read emptyAC (some c4doc) .merge with
  | .error e => .error e
  | .ok (a1, _) => read a1 (some c4doc) .merge

/-- A document whose child element ping carries the text pow. -/
def c5doc : XDoc := ⟨"r", [], .cons (.elem "ping" [] (.cons (.text " pow ") .nil)) .nil⟩

/-! ## Claim theorems -/

/-- C1: the docstring scenario diverges from the claim.  Loading s1.xcfg
and then s2.xcfg and printing with the bash dialect in export mode emits
only the three lines for HOME, foo and zip: the child elements ping and
blort of s2 are lost, because in load mode the recursive parse call never
runs (it sits in the merge branch) and because child element names are
never added to the keylist that do_p iterates.  The claim (and the
expectation set by the module docstring) calls for five lines including
ping=pow and blort=wibble. -/
theorem c1_scenario_three_lines_not_five :
    c1run = .ok ["export HOME=/tmp", "export foo=bar", "export zip=bong"] := by
  rfl

/-- C2: on the exact example of the parse_element docstring, a parent
with attribute bar="abc" and child element bar with text 42, the
attribute value is what remains: child elements are attached during the
childNodes loop (before the attribute loop runs), the deferred child_dict
pass is a no-op, so the attribute assignment overwrites the child.  The
claim (and the docstring, which promises foo.bar == 42) says the child
element should win. -/
theorem c2_attribute_overwrites_child :
    (match read emptyAC (some c2doc) .load with
      | .error e => .error e
      | .ok (a, _) => .ok (pyGetattrOpt a "bar"))
    = Except.ok (ε := PyErr) (some (Val.str "abc")) := by
  rfl

/-- C4: merging the same document with a nested element c twice raises
AttributeError instead of returning the mutated target: on the second
merge the name c already exists, and the code fetches the existing child
from self.d, an attribute AdvancedConfig never defines.  The claim says
the call succeeds on every well-formed document. -/
theorem c4_merge_existing_child_raises :
    c4run = .error .attributeError := by
  rfl

/-- C5: loading a document whose child element ping has the direct text
pow leaves an empty never-parsed node under ping and emits no warning at
all; the text is discarded because the recursive parse call only runs in
merge mode.  The claim says the stripped text pow becomes the sole value
of the node. -/
theorem c5_child_text_lost_on_load :
    (match read emptyAC (some c5doc) .load with
      | .error e => .error e
      | .ok (a, ws) => .ok (pyGetattrOpt a "ping", ws))
    = Except.ok (ε := PyErr) (some (Val.node emptyAC), ([] : List String)) := by
  rfl

/-- The do_p filter pair, propositionally: a key survives precisely when
the blacklist is empty or misses it, and the whitelist is empty or holds
it. -/
theorem survives_iff (bl wl : List String) (k : String) :
    survives bl wl k = true ↔ (bl = [] ∨ k ∉ bl) ∧ (wl = [] ∨ k ∈ wl) := by
  simp [survives, List.contains, List.length_eq_zero]

/-- A session whose single key A sits in both the white and the black
list. -/
def c3sess : Session :=
  { do_reset with
    xcfg := .mk (.cons "A" (.str "1") .nil) ["A"],
    wl := ["A"], bl := ["A"], shell := some "bash" }

/-- C3 counterexample: with the flat map holding only A (value 1), a
whitelist containing A and a blacklist also containing A, do_p emits
nothing.  The claim says that, the whitelist being non-empty, the emitted
keys are exactly the flat-map keys in the whitelist (here A, one line)
and the blacklist is not consulted at all. -/
theorem c3_whitelisted_key_suppressed :
    c3sess.wl = ["A"] ∧ c3sess.bl = ["A"] ∧ "A" ∈ c3sess.xcfg.keylist ∧
      do_p c3sess none = .ok [] := by
  refine ⟨rfl, rfl, by simp [c3sess, AC.keylist], rfl⟩

/-- C3 as amended: the blacklist is consulted first and applies even when
the whitelist is non-empty.  A key is emitted precisely when it is in the
keylist and passes both filters: the blacklist is empty or does not hold
the key, and the whitelist is empty or holds the key.  Stated for every
session whose keylist entries are all bound to strings. -/
theorem c3_blacklist_applies_even_with_whitelist (st : Session) (env : Option String)
    (h : strOnlyB st.xcfg = true) :
    (do_p st env = .ok ((survivors st).map (fun k =>
      renderLine (sh_dialect st.shell env st.EXPORT_ENV).1
        (sh_dialect st.shell env st.EXPORT_ENV).2.1
        (sh_dialect st.shell env st.EXPORT_ENV).2.2 k (strValOf st.xcfg k))))
    ∧ ∀ k, k ∈ survivors st ↔ k ∈ st.xcfg.keylist
        ∧ (st.bl = [] ∨ k ∉ st.bl) ∧ (st.wl = [] ∨ k ∈ st.wl) := by
  refine ⟨do_p_spec st env h, fun k => ?_⟩
  rw [survivors, List.mem_filter, mem_sortKeys, survives_iff]

/-- A session with keys A and B, a blacklist holding A and a whitelist
holding both. -/
def c3wit : Session :=
  { do_reset with
    xcfg := .mk (.cons "A" (.str "1") (.cons "B" (.str "2") .nil)) ["A", "B"],
    wl := ["A", "B"], bl := ["A"], shell := some "bash" }

/-- Witness for the amended C3 at a concrete session: the whitelist holds
A and B, the blacklist holds A, and only B is emitted. -/
theorem c3_blacklist_applies_witness :
    strOnlyB c3wit.xcfg = true ∧ do_p c3wit none = .ok ["export B=2"] :=
  ⟨rfl, ((c3_blacklist_applies_even_with_whitelist c3wit none rfl).1).trans (by rfl)⟩

/-- C7: do_p emits one line per surviving key in lexicographically sorted
key order; the (prefix, middle, quote) triple follows the dialect-by-mode
table; each line is prefix, key, middle, value with the value wrapped in
the quote character exactly when it contains a space or an equals sign. -/
theorem c7_render_contract (st : Session) (env : Option String)
    (h : strOnlyB st.xcfg = true) :
    (do_p st env = .ok ((survivors st).map (fun k =>
      renderLine (sh_dialect st.shell env st.EXPORT_ENV).1
        (sh_dialect st.shell env st.EXPORT_ENV).2.1
        (sh_dialect st.shell env st.EXPORT_ENV).2.2 k (strValOf st.xcfg k))))
    ∧ List.Sorted (· ≤ ·) (survivors st)
    ∧ sh_dialect (some "csh") env true = ("setenv ", " ", "\"")
    ∧ sh_dialect (some "csh") env false = ("set ", "=", "\"")
    ∧ sh_dialect (some "bash") env true = ("export ", "=", "\"")
    ∧ sh_dialect (some "bash") env false = ("", "=", "\"")
    ∧ ∀ pre mid wrap k v, renderLine pre mid wrap k v
        = pre ++ k ++ mid
          ++ (if ' ' ∈ v.data ∨ '=' ∈ v.data then wrap else "") ++ v
          ++ (if ' ' ∈ v.data ∨ '=' ∈ v.data then wrap else "") := by
  refine ⟨do_p_spec st env h,
    List.Pairwise.sublist (List.filter_sublist _) (sorted_sortKeys _),
    rfl, rfl, rfl, rfl, fun pre mid wrap k v => ?_⟩
  have hq : (decide (pyFind v " " ≥ 0) || decide (pyFind v "=" ≥ 0)) = true
      ↔ (' ' ∈ v.data ∨ '=' ∈ v.data) := by
    rw [Bool.or_eq_true, decide_eq_true_iff, decide_eq_true_iff,
      pyFind_single_nonneg v " " ' ' rfl, pyFind_single_nonneg v "=" '=' rfl]
  rw [renderLine]
  by_cases hc : (' ' ∈ v.data ∨ '=' ∈ v.data)
  · rw [if_pos (hq.mpr hc), if_pos hc]
  · rw [if_neg (fun hb => hc (hq.mp hb)), if_neg hc]

/-- A session exercising the csh export dialect with a quoted and an
unquoted value. -/
def c7wit : Session :=
  { do_reset with
    xcfg := .mk (.cons "zip" (.str "a b") (.cons "HOME" (.str "/tmp") .nil)) ["zip", "HOME"],
    shell := some "csh" }

/-- Witness for C7 at a concrete session: keys sorted (HOME before zip),
setenv syntax, and only the value with a space quoted. -/
theorem c7_render_contract_witness :
    strOnlyB c7wit.xcfg = true ∧
      do_p c7wit none = .ok ["setenv HOME /tmp", "setenv zip \"a b\""] :=
  ⟨rfl, ((c7_render_contract c7wit none rfl).1).trans (by rfl)⟩

/-- A tree with child a holding child b with value x, for probing paths
with consecutive slashes. -/
def c8tree : Val :=
  .node (.mk (.cons "a" (.node (.mk (.cons "b" (.str "x") .nil) [])) .nil) [])

/-- C8 counterexample: on the path a//b, splitting the stripped path
yields the segments a, the empty string, and b; the empty segment names
no existing child anywhere in the tree, yet resolution succeeds (the
empty segment is swallowed when the remainder is rejoined and
re-stripped), contradicting the claim that a lookup failure occurs
exactly when some path segment names no existing child. -/
theorem c8_empty_segment_swallowed :
    axpath c8tree "a//b" = .ok (.str "x")
    ∧ (pySplit '/' [] (pyStripCharL '/' ("a//b" : String).data)).map String.mk
        = ["a", "", "b"]
    ∧ pyGetattrV c8tree "" = .error .attributeError
    ∧ pyGetattrV (.node (.mk (.cons "b" (.str "x") .nil) [])) "" = .error .attributeError := by
  have hstrip : pyStripCharL '/' (("a//b" : String).data) = ['a', '/', '/', 'b'] := rfl
  have hsplit : pySplit '/' [] ['a', '/', '/', 'b'] = [['a'], [], ['b']] := by
    rw [pySplit_cons_ne '/' 'a' _ (by decide), pySplit_cons_eq, pySplit_cons_eq,
      pySplit_cons_ne '/' 'b' _ (by decide), pySplit_nil]
    rfl
  refine ⟨?_, by rw [hstrip, hsplit]; rfl, rfl, rfl⟩
  rw [axpath_eq_walk, if_neg (by rw [hstrip]; simp)]
  have hsegs : segsOf "a//b" = ["a", "b"] := by
    rw [segsOf, hstrip, hsplit]
    rfl
  rw [hsegs]
  rfl

/-- C8 as amended: axpath strips the slashes, splits on the slash, and
walks the resulting segments front to back, except that empty segments
produced by consecutive slashes are skipped (the remainder of the path is
rejoined and re-stripped at each recursive step); an entirely empty or
all-slash path performs a lookup of the empty name, which fails; the walk
fails with a lookup error exactly when it reaches a missing name, as
walkSegs prescribes; and a zero-segment split is impossible, so that
branch of the code is unreachable. -/
theorem c8_axpath_walks_skipping_empty_segments :
    (∀ (v : Val) (p : String),
      axpath v p = if pyStripCharL '/' p.data = [] then pyGetattrV v ""
        else walkSegs v (segsOf p))
    ∧ ∀ l : List Char, 1 ≤ (pySplit '/' [] l).length :=
  ⟨fun v p => axpath_eq_walk v p,
    fun l => List.length_pos.mpr (pySplit_ne_nil '/' [] l)⟩

/-- C9: when the document is not well-formed XML (the external parse
raised), read logs the failure and returns with the configuration object
unchanged: same slots, same keylist, same stored root name, no warnings,
and no exception propagates. -/
theorem c9_parse_failure_state_unchanged (a : AC) (mode : Mode) :
    read a none mode = .ok (a, []) := by
  rfl

/-! ## C6: merge twice, then clean -/

/-- A document whose root carries the single attribute k with value v. -/
def c6doc (rname k v : String) : XDoc := ⟨rname, [(k, v)], .nil⟩

theorem c6_first_read (rname k v : String) (hk : (nameSlot == k) = false) :
    read emptyAC (some (c6doc rname k v)) .merge
      = .ok (.mk (.cons nameSlot (.str rname) (.cons k (.str v) .nil)) [k], []) := by
  simp [read, c6doc, parse_element, parse_childNodes, setAttrsLoop, xsetattr,
    pyGetattrOpt, lookupSlot, hk, pySetattr, setSlot, addKey, AC.slots, AC.keylist,
    emptyAC, pyJoin, pyStripWsL, convert_text, convertSlots, convertOne]

theorem c6_second_read (rname k v : String) (hk : (nameSlot == k) = false)
    (hstrip : pyStripWsL v.data = v.data) :
    read (.mk (.cons nameSlot (.str rname) (.cons k (.str v) .nil)) [k])
        (some (c6doc rname k v)) .merge
      = .ok (.mk (.cons nameSlot (.str rname) (.cons k (.str (v ++ ":" ++ v)) .nil)) [k], []) := by
  have hv : pyStripWs v = v := by
    cases v with
    | mk lv => simp [pyStripWs, hstrip]
  simp [read, c6doc, parse_element, parse_childNodes, setAttrsLoop, xsetattr,
    pyGetattrOpt, lookupSlot, hk, hv, pySetattr, setSlot, addKey, AC.slots, AC.keylist,
    pyJoin, pyStripWsL, convert_text, convertSlots, convertOne]

theorem c6_clean (rname k v : String) (hk : (nameSlot == k) = false)
    (hcolon : ':' ∉ v.data) :
    clean (.mk (.cons nameSlot (.str rname) (.cons k (.str (v ++ ":" ++ v)) .nil)) [k]) ":"
      = .ok (.mk (.cons nameSlot (.str rname) (.cons k (.str v) .nil)) [k]) := by
  cases v with
  | mk lv =>
  have hdata : (String.mk lv ++ ":" ++ String.mk lv).data = lv ++ ':' :: lv := by
    simp [String.data_append]
  have hsplit : pySplit ':' [] (lv ++ ':' :: lv) = [lv, lv] := by
    rw [pySplit_append_sep ':' lv lv hcolon, pySplit_sep_free ':' lv hcolon]
  simp [clean, cleanGo, pyGetitem, lookupSlot, hk, AC.slots, AC.keylist, cleanEntry,
    splitByStr, hdata, hsplit, dedupAcc, joinStr, pyJoin, pySetitem, addKey, pySetattr,
    setSlot]

/-- Two successive merge reads of the same single-attribute document. -/
def c6run (rname k v : String) : Except PyErr (AC × List String) :=
  match read emptyAC (some (c6doc rname k v)) .merge with
  | .error e => .error e
  | .ok (a1, _) => read a1 (some (c6doc rname k v)) .merge

/-- C6: merging the same root-attribute document (key k, single value v,
already stripped, holding no colon, and distinct from the internal name
slot) twice in merge mode into an initially empty configuration leaves k
bound to v ++ ":" ++ v, a plain concatenation with the fixed colon and no
deduplication; a subsequent clean with separator ":" collapses the value
back to v. -/
theorem c6_merge_twice_then_clean_collapses (rname k v : String) (hk : k ≠ nameSlot)
    (hstrip : pyStripWsL v.data = v.data) (hcolon : ':' ∉ v.data) :
    ∃ a2 ws,
      c6run rname k v = .ok (a2, ws)
      ∧ pyGetattrOpt a2 k = some (.str (v ++ ":" ++ v))
      ∧ ∃ a3, clean a2 ":" = .ok a3 ∧ pyGetattrOpt a3 k = some (.str v) := by
  have hkb : (nameSlot == k) = false := beq_eq_false_iff_ne.mpr (fun he => hk he.symm)
  refine ⟨.mk (.cons nameSlot (.str rname) (.cons k (.str (v ++ ":" ++ v)) .nil)) [k],
    [], ?_, ?_, .mk (.cons nameSlot (.str rname) (.cons k (.str v) .nil)) [k], ?_, ?_⟩
  · rw [c6run, c6_first_read rname k v hkb]
    exact c6_second_read rname k v hkb hstrip
  · simp [pyGetattrOpt, lookupSlot, hkb, AC.slots]
  · exact c6_clean rname k v hkb hcolon
  · simp [pyGetattrOpt, lookupSlot, hkb, AC.slots]

/-- Witness for C6 at key PATH with value x. -/
theorem c6_merge_twice_witness :
    ("PATH" : String) ≠ nameSlot
    ∧ pyStripWsL ("x" : String).data = ("x" : String).data
    ∧ ':' ∉ ("x" : String).data
    ∧ ∃ a2 ws,
      c6run "r" "PATH" "x" = .ok (a2, ws)
      ∧ pyGetattrOpt a2 "PATH" = some (.str ("x" ++ ":" ++ "x"))
      ∧ ∃ a3, clean a2 ":" = .ok a3 ∧ pyGetattrOpt a3 "PATH" = some (.str "x") :=
  ⟨by decide, by decide, by decide,
    c6_merge_twice_then_clean_collapses "r" "PATH" "x" (by decide) (by decide) (by decide)⟩

/-! ## C10: the environment effect of do_e -/

theorem lookupEnv_cons_ne (k0 v j : String) (rest : Env) (h : (k0 == j) = false) :
    lookupEnv ((k0, v) :: rest) j = lookupEnv rest j := by
  simp [lookupEnv, List.find?, h]

theorem lookupEnv_eraseAllKey (j k : String) (env : Env) :
    lookupEnv (eraseAllKey k env) j = if j = k then none else lookupEnv env j := by
  induction env with
  | nil => simp [eraseAllKey, lookupEnv]
  | cons p rest ih =>
    obtain ⟨k0, v⟩ := p
    by_cases h0 : k0 = k
    · subst h0
      have h1 : eraseAllKey k0 ((k0, v) :: rest) = eraseAllKey k0 rest := by
        simp [eraseAllKey]
      rw [h1, ih]
      by_cases hj : j = k0
      · simp [hj]
      · have hb : (k0 == j) = false := beq_eq_false_iff_ne.mpr (fun he => hj he.symm)
        rw [if_neg hj, if_neg hj, lookupEnv_cons_ne k0 v j rest hb]
    · have h1 : eraseAllKey k ((k0, v) :: rest) = (k0, v) :: eraseAllKey k rest := by
        simp [eraseAllKey, h0]
      rw [h1]
      by_cases hj : k0 = j
      · subst hj
        rw [if_neg h0]
        simp [lookupEnv, List.find?]
      · have hb : (k0 == j) = false := beq_eq_false_iff_ne.mpr hj
        rw [lookupEnv_cons_ne k0 v j _ hb, ih]
        by_cases hjk : j = k
        · simp [hjk]
        · rw [if_neg hjk, if_neg hjk, lookupEnv_cons_ne k0 v j rest hb]

/-- C10: every invocation of the e command, whatever the argument line
(covering the whole-environment form, the selective colon form, and any
other separator), deletes TERMCAP from the process environment table
itself and leaves every other variable in place. -/
theorem c10_termcap_deleted (st : Session) (env : Env) (line : String) :
    (do_e st env line).2 = eraseAllKey "TERMCAP" env
    ∧ lookupEnv (do_e st env line).2 "TERMCAP" = none
    ∧ ∀ k, k ≠ "TERMCAP" → lookupEnv (do_e st env line).2 k = lookupEnv env k := by
  have henv : (do_e st env line).2 = eraseAllKey "TERMCAP" env := by
    rw [do_e]
    split
    · rfl
    · split
      · rfl
      · rfl
  refine ⟨henv, ?_, ?_⟩
  · rw [henv, lookupEnv_eraseAllKey]
    simp
  · intro k hk
    rw [henv, lookupEnv_eraseAllKey, if_neg hk]

/-- A concrete environment holding TERMCAP and HOME. -/
def c10env : Env := [("TERMCAP", "xx"), ("HOME", "/h")]

/-- Witness for C10 at a concrete invocation: after e on an environment
holding TERMCAP and HOME, TERMCAP is gone from the environment and HOME
is untouched. -/
theorem c10_termcap_deleted_witness :
    ("HOME" : String) ≠ "TERMCAP"
    ∧ lookupEnv (do_e do_reset c10env "").2 "TERMCAP" = none
    ∧ lookupEnv (do_e do_reset c10env "").2 "HOME" = some "/h" := by
  refine ⟨by decide, (c10_termcap_deleted do_reset c10env "").2.1, ?_⟩
  rw [(c10_termcap_deleted do_reset c10env "").2.2 "HOME" (by decide)]
  rfl

end Xcfg
